import Mathlib

/-!
Verification of the African-markets export pipeline and its serving layer.

The development shallowly embeds the two Python modules of the repository:

* `export_market_data.py` — value coercion (`safe_float`), per-dataset
  normalization of index / movers / companies tables, the per-exchange
  export routine, and the batching main loop (`chunks`, `main`);
* `app.py` — NaN cleaning of persisted JSON (`clean_nan_values`,
  `load_json`) and the `/api/<exchange>/<dataset>` handler (`get_data`).

Python scalars are modelled by `PyScalar` (None, int, float as an exact
decimal, str); machine floats are idealized as exact rationals.  Fallible
steps (pandas `iloc` out of range, `float()` parse errors) return
`Except`, and the `try/except` blocks of the source become explicit
matches on those `Except` values.
-/

set_option autoImplicit false

namespace AfricanMarkets

/-- A Python scalar cell value as it occurs in the scraped tables:
`None`/NaN, an int, a float (idealized as the exact decimal `m / 10^k`),
or a string. -/
inductive PyScalar where
  | pynone
  | pyint (n : ℤ)
  | pyfloat (m : ℤ) (k : ℕ)
  | pystr (s : String)
deriving DecidableEq, Repr

/-- Decimal rendering of the float `m / 10^k`, matching Python `str` on
exact decimals (always at least one fractional digit, e.g. `"15.0"`). -/
def floatRepr (m : ℤ) (k : ℕ) : String :=
  let ds := Nat.toDigits 10 m.natAbs
  let ds := if ds.length ≤ k then List.replicate (k + 1 - ds.length) '0' ++ ds else ds
  let ip := ds.take (ds.length - k)
  let fp := ds.drop (ds.length - k)
  let fp := if fp.isEmpty then ['0'] else fp
  String.mk ((if m < 0 then ['-'] else []) ++ ip ++ '.' :: fp)

/-- Python `str()` on a scalar. -/
def pyStr : PyScalar → String
  | .pynone => "None"
  | .pyint n => toString n
  | .pyfloat m k => floatRepr m k
  | .pystr s => s

/-- ASCII whitespace stripped by Python `str.strip()` (the Unicode-only
whitespace code points do not occur in the modelled data). -/
def isPyWs (c : Char) : Bool :=
  c = ' ' ∨ c = '\t' ∨ c = '\n' ∨ c = '\r' ∨ c.toNat = 11 ∨ c.toNat = 12

/-- Python `str.strip()`. -/
def pyStrip (s : String) : String :=
  String.mk (((s.data.dropWhile isPyWs).reverse.dropWhile isPyWs).reverse)

/-- Reads an optional leading sign, returning the sign and the rest. -/
def readSign : List Char → ℤ × List Char
  | c :: rest =>
    if c = '+' then (1, rest) else if c = '-' then (-1, rest) else (1, c :: rest)
  | [] => (1, [])

/-- Value of a (most-significant-first) digit string. -/
def digitsToNat (ds : List Char) : ℕ :=
  List.foldl (fun a c => 10 * a + (c.toNat - 48)) 0 ds

/-- Reads an optional exponent part `e`/`E` sign digits; yields the
exponent value and the remaining characters, or `none` when an `e` is
present but malformed. -/
def readExp : List Char → Option (ℤ × List Char)
  | c :: rest =>
    if c = 'e' ∨ c = 'E' then
      let sr := readSign rest
      let dr := sr.2.span Char.isDigit
      if dr.1.isEmpty then none else some (sr.1 * (digitsToNat dr.1 : ℤ), dr.2)
    else some (0, c :: rest)
  | [] => some (0, [])

/-- Python `float()` on an already-stripped string, on the finite-literal
grammar `[sign] (digits [. digits] | . digits) [exponent]` actually
produced by the scraped data (the special forms `inf`/`nan` and digit
underscores are outside the modelled cell domain).  Returns `none` when
parsing fails (Python raises `ValueError`). -/
def pyFloat (s : String) : Option ℚ :=
  let sr := readSign s.data
  let ir := sr.2.span Char.isDigit
  let fr : List Char × List Char :=
    match ir.2 with
    | c :: rest => if c = '.' then rest.span Char.isDigit else ([], c :: rest)
    | [] => ([], [])
  if ir.1.isEmpty ∧ fr.1.isEmpty then none
  else
    match readExp fr.2 with
    | none => none
    | some er =>
      if er.2.isEmpty then
        let mant : ℤ := sr.1 * ((digitsToNat ir.1 * 10 ^ fr.1.length + digitsToNat fr.1 : ℕ) : ℤ)
        let e10 : ℤ := er.1 - (fr.1.length : ℤ)
        some (if 0 ≤ e10 then mkRat (mant * (10 : ℤ) ^ e10.toNat) 1
              else mkRat mant ((10 : ℕ) ^ (-e10).toNat))
      else none

/-- The exceptions the embedded fragments can raise. -/
inductive PyExc where
  | valueError
  | indexError
deriving DecidableEq, Repr

/-- The body of `safe_float`, i.e. the code inside its `try:` block; the
only raising step is `float(s)`, modelled by `pyFloat` returning `none`. -/
def safe_float_body (val : PyScalar) (default : ℚ) : Except PyExc ℚ :=
  match val with
  | .pynone => .ok default
  | v =>
    let s := pyStrip (pyStr v)
    if s = "" ∨ s = "\u200B" then .ok default
    else
      match pyFloat s with
      | some q => .ok q
      | none => .error .valueError

/-- `safe_float` from `export_market_data.py`: the `try/except` wrapper
returning `default` on any exception.  Total by construction ("never
raises"). -/
def safe_float (val : PyScalar) (default : ℚ) : ℚ :=
  match safe_float_body val default with
  | .ok q => q
  | .error _ => default

/-! ## Movers (gainers / losers) normalization -/

/-- The record appended for one gainers/losers row. -/
structure MoverRecord where
  ticker : String
  price : ℚ
  change : String
deriving DecidableEq, Repr

/-- pandas `row.iloc[i]`: raises `IndexError` when the position is out of
range. -/
def iloc (row : List PyScalar) (i : ℕ) : Except PyExc PyScalar :=
  match row.get? i with
  | some v => .ok v
  | none => .error .indexError

/-- The body of the guarded `try:` block for one gainers/losers row:
`ticker = str(row.iloc[0]) if len(row) > 0 else ""`,
`price_val = safe_float(row.iloc[1])` (the `row.iloc[1]` access itself can
raise), `change = str(row.iloc[2]) if len(row) > 2 else ""`. -/
def moverRowE (row : List PyScalar) : Except PyExc MoverRecord := do
  let ticker := if h : 0 < row.length then pyStr (row.get ⟨0, h⟩) else ""
  let pv ← iloc row 1
  let change := if h : 2 < row.length then pyStr (row.get ⟨2, h⟩) else ""
  return { ticker := ticker, price := safe_float pv 0, change := change }

/-- The gainers/losers row loop: a row whose `try:` block raises is
skipped (`except: continue`); the others are appended in order. -/
def normMovers (rows : List (List PyScalar)) : List MoverRecord :=
  rows.filterMap (fun r => (moverRowE r).toOption)

/-! ## Index normalization -/

/-- A pandas DataFrame as the index fetch returns it: named columns and
positional rows. -/
structure IndexDF where
  cols : List String
  rows : List (List PyScalar)

/-- Position of the `Date` column (`List.findIdx`). -/
def dateIdx (cols : List String) : ℕ :=
  cols.findIdx (fun c => c = "Date")

/-- `astype(str)` applied to the cell at position `j` of one row. -/
def stringifyAt : ℕ → List PyScalar → List PyScalar
  | _, [] => []
  | 0, c :: cs => .pystr (pyStr c) :: cs
  | j + 1, c :: cs => c :: stringifyAt j cs

/-- The index normalization of `export_exchange_data`:
`index_df.tail(10)`, then `['Date'].astype(str)` when a `Date` column is
present, then `to_dict('records')`. -/
def normIndex (df : IndexDF) : List (List (String × PyScalar)) :=
  let t := df.rows.drop (df.rows.length - 10)
  let t2 := if "Date" ∈ df.cols then t.map (stringifyAt (dateIdx df.cols)) else t
  t2.map (fun r => df.cols.zip r)

/-- The record `to_dict('records')` produces for one (already truncated)
row, date column stringified when present. -/
def indexRecordOf (cols : List String) (row : List PyScalar) : List (String × PyScalar) :=
  cols.zip (if "Date" ∈ cols then stringifyAt (dateIdx cols) row else row)

/-! ## Companies normalization -/

/-- A pandas `Series.get` key: a named column label or an integer label
(the positional fallback `row.get(0)` / `row.get(1)` of the source). -/
inductive Key where
  | name (s : String)
  | pos (n : ℕ)
deriving DecidableEq, Repr

/-- One companies row: a label-to-cell mapping, as `row.get` sees it. -/
abbrev CompanyRow := List (Key × PyScalar)

/-- First binding of a label in the row, if any. -/
def rowLookup : CompanyRow → Key → Option PyScalar
  | [], _ => none
  | (k2, v) :: rest, k => if k2 = k then some v else rowLookup rest k

/-- pandas `row.get(key, default)`. -/
def rowGet (row : CompanyRow) (k : Key) (default : PyScalar) : PyScalar :=
  match rowLookup row k with
  | some v => v
  | none => default

/-- `fillna('')` on one cell: None/NaN becomes the empty string. -/
def fillCell : PyScalar → PyScalar
  | .pynone => .pystr ""
  | v => v

/-- `companies_df.fillna('')` on one row. -/
def fillnaRow (row : CompanyRow) : CompanyRow :=
  row.map (fun kv => (kv.1, fillCell kv.2))

/-- The record built for one companies row (`hasattr(row, 'get')` holds
for a pandas Series, so the `row.get` branches of the source apply). -/
structure CompanyRecord where
  ticker : String
  name : String
  volume : String
  price : ℚ
  change : ℚ
deriving DecidableEq, Repr

/-- The body of the guarded `try:` block for one companies row. -/
def normCompanyRow (row : CompanyRow) : CompanyRecord :=
  let ticker := pyStr (rowGet row (.name "Ticker") (rowGet row (.pos 0) (.pystr "")))
  let name := pyStr (rowGet row (.name "Name") (rowGet row (.pos 1) (.pystr "")))
  let volume := pyStr (rowGet row (.name "Volume") (.pystr "N/A"))
  { ticker := ticker
    name := name
    volume := if volume = "" then "N/A" else volume
    price := safe_float (rowGet row (.name "Price") (.pyint 0)) 0
    change := safe_float (rowGet row (.name "Change") (.pyint 0)) 0 }

/-- The guarded row step: on the modelled scalar domain `row.get`-based
resolution never raises, so the guard always yields a record; the
`except: continue` of the source is kept as the `Except` layer. -/
def normCompanyRowE (row : CompanyRow) : Except PyExc CompanyRecord :=
  .ok (normCompanyRow row)

/-- The companies loop: `fillna('')`, then per-row resolution with rows
whose `try:` block raises skipped. -/
def normCompanies (rows : List CompanyRow) : List CompanyRecord :=
  rows.filterMap (fun r => (normCompanyRowE (fillnaRow r)).toOption)

/-- The companies row of the end-to-end scenario in the specification. -/
def eqtyRow : CompanyRow :=
  [(.name "Ticker", .pystr "EQTY"), (.name "Name", .pystr "Equity Group"),
   (.name "Volume", .pystr ""), (.name "Price", .pystr ""), (.name "Change", .pystr "")]

/-! ## Per-exchange export (`export_exchange_data`) -/

/-- The four dataset kinds exported per exchange. -/
inductive Kind where
  | index
  | gainers
  | losers
  | companies
deriving DecidableEq, Repr

/-- The normalized payload written for one dataset. -/
inductive ExportedData where
  | idx (recs : List (List (String × PyScalar)))
  | mov (recs : List MoverRecord)
  | comp (recs : List CompanyRecord)
deriving DecidableEq, Repr

/-- Outcome of one guarded dataset block: the file written with its data,
the "No data returned" path, or the caught per-dataset failure. -/
inductive DsOutcome where
  | wrote (file : String) (data : ExportedData)
  | noData
  | failed (err : String)
deriving DecidableEq, Repr

/-- One guarded dataset block of `export_exchange_data`: fetch once
inside `try:`, take the "No data" path when the result is `None`/empty,
otherwise normalize and write; any raise is caught at this boundary.  The
operation is indexed by attempt number so the number of attempts is
observable: the source performs exactly one call (`op 0`) and never
sleeps, hence the empty sleep-duration list. -/
def datasetBlock {α : Type} (op : ℕ → Except String (Option α)) (isEmp : α → Bool)
    (norm : α → ExportedData) (file : String) : DsOutcome × List ℕ :=
  (match op 0 with
   | .error e => .failed e
   | .ok none => .noData
   | .ok (some raw) => if isEmp raw then .noData else .wrote file (norm raw), [])

/-- Modelled from the spec: `with_retry(operation, max_attempts=3,
backoff_factor=2)` — no such wrapper exists in the source; this definition
follows the spec's words for comparison.  On each failure, while attempts
remain, it sleeps `backoff_factor ^ attempt_index` time units
(attempt_index starting at 0) and retries; after exhausting attempts it
surfaces the final failure.  Returns the result and the sleep
durations. -/
def with_retry_spec {γ : Type} (op : ℕ → Except String γ) (backoff : ℕ) :
    ℕ → ℕ → Except String γ × List ℕ
  | _, 0 => (.error "with_retry: no attempts", [])
  | attempt, 1 => (op attempt, [])
  | attempt, n + 2 =>
    match op attempt with
    | .ok v => (.ok v, [])
    | .error _ =>
      let r := with_retry_spec op backoff (attempt + 1) (n + 1)
      (r.1, backoff ^ attempt :: r.2)

/-- The dataset block as the spec's retry claim describes it: the
fetch+normalize operation wrapped by the retry executor with
`max_attempts = 3`, `backoff_factor = 2`. -/
def datasetBlockRetry {α : Type} (op : ℕ → Except String (Option α)) (isEmp : α → Bool)
    (norm : α → ExportedData) (file : String) : DsOutcome × List ℕ :=
  let r := with_retry_spec op 2 0 3
  (match r.1 with
   | .error e => .failed e
   | .ok none => .noData
   | .ok (some raw) => if isEmp raw then .noData else .wrote file (norm raw), r.2)

/-- The behavior of the external collaborators for one exchange: whether
`afm.Exchange(market=...)` raises, and what each of the four fetches
returns (a raise, `None`, or a raw table). -/
structure ExchangeEnv where
  setup : Except String Unit
  indexRes : Except String (Option IndexDF)
  gainersRes : Except String (Option (List (List PyScalar)))
  losersRes : Except String (Option (List (List PyScalar)))
  companiesRes : Except String (Option (List CompanyRow))

/-- `export_exchange_data`: the outer `try:` constructs the exchange
context; on a raise the function returns `False` having attempted no
dataset.  Otherwise all four dataset blocks run in order, each failure
caught at its own boundary, and the function returns `True`. -/
def export_exchange_data (code : String) (env : ExchangeEnv) : Bool × List (Kind × DsOutcome) :=
  match env.setup with
  | .error _ => (false, [])
  | .ok _ =>
    (true,
     [(.index, (datasetBlock (fun _ => env.indexRes) (fun df => df.rows.isEmpty)
         (fun df => .idx (normIndex df)) (code ++ "_index.json")).1),
      (.gainers, (datasetBlock (fun _ => env.gainersRes) (fun rs => rs.isEmpty)
         (fun rs => .mov (normMovers rs)) (code ++ "_gainers.json")).1),
      (.losers, (datasetBlock (fun _ => env.losersRes) (fun rs => rs.isEmpty)
         (fun rs => .mov (normMovers rs)) (code ++ "_losers.json")).1),
      (.companies, (datasetBlock (fun _ => env.companiesRes) (fun rs => rs.isEmpty)
         (fun rs => .comp (normCompanies rs)) (code ++ "_companies.json")).1)])

/-! ## Batching (`chunks` and `main`) -/

/-- Fuel-driven worker for `chunks` (fuel `l.length` always suffices
since each step drops at least one element when `0 < n`). -/
def chunksAux {α : Type} : ℕ → List α → ℕ → List (List α)
  | 0, _, _ => []
  | _ + 1, [], _ => []
  | fuel + 1, a :: l, n =>
    if n = 0 then [] else (a :: l).take n :: chunksAux fuel ((a :: l).drop n) n

/-- `chunks(lst, n)`: successive `n`-sized slices `lst[i:i + n]`.  (For
`n = 0` Python's `range` raises; the model returns `[]` and all theorems
assume `0 < n`.) -/
def chunks {α : Type} (l : List α) (n : ℕ) : List (List α) :=
  chunksAux l.length l n

/-- An observable event of the `main` loop: processing one batch, or the
inter-batch `time.sleep(PAUSE_SECONDS)`. -/
inductive Ev (σ : Type) where
  | batch (b : List σ)
  | pause
deriving DecidableEq, Repr

/-- Whether an event is the inter-batch pause. -/
def isPause {σ : Type} : Ev σ → Bool
  | .pause => true
  | _ => false

/-- The loop body of `main`, enumerated from 0 (`batch_idx = i + 1`):
process the batch, then pause when `batch_idx < total_batches`. -/
def mainEventsAux {σ : Type} (tb : ℕ) : ℕ → List (List σ) → List (Ev σ)
  | _, [] => []
  | i, b :: bs =>
    .batch b :: ((if i + 1 < tb then [.pause] else []) ++ mainEventsAux tb (i + 1) bs)

/-- The event trace of `main` over the ordered source list with batch
size `B`: `total_batches = (N + B - 1) // B` as the source computes it. -/
def mainEvents {σ : Type} (srcs : List σ) (B : ℕ) : List (Ev σ) :=
  mainEventsAux ((srcs.length + B - 1) / B) 0 (chunks srcs B)

/-- The ordered exchange registry of `export_market_data.py`. -/
def exchanges : List (String × String) :=
  [("bse", "Botswana Stock Exchange"),
   ("brvm", "Bourse Régionale des Valeurs Mobilières"),
   ("gse", "Ghana Stock Exchange"),
   ("jse", "Johannesburg Stock Exchange"),
   ("luse", "Lusaka Securities Exchange"),
   ("mse", "Malawi Stock Exchange"),
   ("nse", "Nairobi Securities Exchange"),
   ("ngx", "Nigerian Stock Exchange"),
   ("use", "Uganda Securities Exchange"),
   ("zse", "Zimbabwe Stock Exchange")]

/-! ## Serving layer (`app.py`): JSON values and NaN cleaning -/

/-- A parsed JSON value as `json.loads` returns it, with the non-finite
float tokens `NaN` / `Infinity` / `-Infinity` (accepted by Python's
parser) kept as distinct constructors; finite numbers are exact
rationals. -/
inductive JsonE where
  | null
  | jbool (b : Bool)
  | jnum (q : ℚ)
  | jnan
  | jinf
  | jninf
  | jstr (s : List Char)
  | jarr (xs : List JsonE)
  | jobj (fs : List (List Char × JsonE))

/-- Python `str.replace(old, new)` worker: non-overlapping left-to-right
replacement (fuel `s.length` suffices for non-empty `old`). -/
def pyReplaceAux (old new : List Char) : ℕ → List Char → List Char
  | 0, s => s
  | _ + 1, [] => []
  | fuel + 1, c :: rest =>
    if old.isPrefixOf (c :: rest) then
      new ++ pyReplaceAux old new fuel ((c :: rest).drop old.length)
    else c :: pyReplaceAux old new fuel rest

/-- Python `s.replace(old, new)` for non-empty `old` (the source only
replaces the non-empty `'NaN'`). -/
def pyReplace (s old new : List Char) : List Char :=
  if old.isEmpty then s else pyReplaceAux old new s.length s

/-- JSON insignificant whitespace. -/
def skipWs (cs : List Char) : List Char :=
  cs.dropWhile (fun c => c = ' ' ∨ c = '\t' ∨ c = '\n' ∨ c = '\r')

/-- A JSON string escape (`\n`, `\t`, `\r`, `\b`, `\f`, and identity on
`\"`, `\\`, `\/`; the `\uXXXX` form does not occur in the exported
files). -/
def unescape (c : Char) : Char :=
  if c = 'n' then '\n'
  else if c = 't' then '\t'
  else if c = 'r' then '\r'
  else if c = 'b' then Char.ofNat 8
  else if c = 'f' then Char.ofNat 12
  else c

/-- Parses the body of a JSON string after the opening quote; returns the
content and the remainder after the closing quote. -/
def parseStringBody : ℕ → List Char → Option (List Char × List Char)
  | 0, _ => none
  | _ + 1, [] => none
  | fuel + 1, c :: rest =>
    if c = '"' then some ([], rest)
    else if c = '\\' then
      match rest with
      | [] => none
      | e :: rest2 =>
        match parseStringBody fuel rest2 with
        | some sr => some (unescape e :: sr.1, sr.2)
        | none => none
    else
      match parseStringBody fuel rest with
      | some sr => some (c :: sr.1, sr.2)
      | none => none

/-- Parses a JSON number prefix; returns the value and the remainder. -/
def parseJsonNumber (cs : List Char) : Option (ℚ × List Char) :=
  let nr : Bool × List Char :=
    match cs with
    | c :: rest => if c = '-' then (true, rest) else (false, cs)
    | [] => (false, [])
  let ir := nr.2.span Char.isDigit
  if ir.1.isEmpty then none
  else
    let fr : List Char × List Char :=
      match ir.2 with
      | c :: rest => if c = '.' then rest.span Char.isDigit else ([], c :: rest)
      | [] => ([], [])
    match readExp fr.2 with
    | none => none
    | some er =>
      let mant : ℤ :=
        (if nr.1 then -1 else 1) *
          ((digitsToNat ir.1 * 10 ^ fr.1.length + digitsToNat fr.1 : ℕ) : ℤ)
      let e10 : ℤ := er.1 - (fr.1.length : ℤ)
      some (if 0 ≤ e10 then mkRat (mant * (10 : ℤ) ^ e10.toNat) 1
            else mkRat mant ((10 : ℕ) ^ (-e10).toNat), er.2)

/-- The character `{` (written by code point to keep source lines
brace-free). -/
def lbrace : Char := Char.ofNat 123

/-- The character `}`. -/
def rbrace : Char := Char.ofNat 125

mutual

/-- Recursive-descent `json.loads` value parser (fuel-driven), on the
grammar produced by `json.dump` plus the non-finite tokens. -/
def parseValue : ℕ → List Char → Option (JsonE × List Char)
  | 0, _ => none
  | fuel + 1, cs0 =>
    match skipWs cs0 with
    | [] => none
    | c :: rest =>
      if c = '"' then
        match parseStringBody (rest.length + 1) rest with
        | some sr => some (.jstr sr.1, sr.2)
        | none => none
      else if c = '[' then
        match skipWs rest with
        | c2 :: rest2 =>
          if c2 = ']' then some (.jarr [], rest2)
          else
            match parseItems fuel (c2 :: rest2) with
            | some ir => some (.jarr ir.1, ir.2)
            | none => none
        | [] => none
      else if c = lbrace then
        match skipWs rest with
        | c2 :: rest2 =>
          if c2 = rbrace then some (.jobj [], rest2)
          else
            match parseFields fuel (c2 :: rest2) with
            | some fr => some (.jobj fr.1, fr.2)
            | none => none
        | [] => none
      else if "null".data.isPrefixOf (c :: rest) then some (.null, (c :: rest).drop 4)
      else if "true".data.isPrefixOf (c :: rest) then some (.jbool true, (c :: rest).drop 4)
      else if "false".data.isPrefixOf (c :: rest) then some (.jbool false, (c :: rest).drop 5)
      else if "NaN".data.isPrefixOf (c :: rest) then some (.jnan, (c :: rest).drop 3)
      else if "Infinity".data.isPrefixOf (c :: rest) then some (.jinf, (c :: rest).drop 8)
      else if "-Infinity".data.isPrefixOf (c :: rest) then some (.jninf, (c :: rest).drop 9)
      else
        match parseJsonNumber (c :: rest) with
        | some qr => some (.jnum qr.1, qr.2)
        | none => none

/-- Parses the non-empty item list of a JSON array up to `]`. -/
def parseItems : ℕ → List Char → Option (List JsonE × List Char)
  | 0, _ => none
  | fuel + 1, cs =>
    match parseValue fuel cs with
    | none => none
    | some vr =>
      match skipWs vr.2 with
      | c :: rest =>
        if c = ',' then
          match parseItems fuel rest with
          | some ir => some (vr.1 :: ir.1, ir.2)
          | none => none
        else if c = ']' then some ([vr.1], rest)
        else none
      | [] => none

/-- Parses the non-empty field list of a JSON object up to `}`. -/
def parseFields : ℕ → List Char → Option (List (List Char × JsonE) × List Char)
  | 0, _ => none
  | fuel + 1, cs =>
    match skipWs cs with
    | c :: rest =>
      if c = '"' then
        match parseStringBody (rest.length + 1) rest with
        | some kr =>
          match skipWs kr.2 with
          | c2 :: rest2 =>
            if c2 = ':' then
              match parseValue fuel rest2 with
              | none => none
              | some vr =>
                match skipWs vr.2 with
                | c3 :: rest3 =>
                  if c3 = ',' then
                    match parseFields fuel rest3 with
                    | some fr => some ((kr.1, vr.1) :: fr.1, fr.2)
                    | none => none
                  else if c3 = rbrace then some ([(kr.1, vr.1)], rest3)
                  else none
                | [] => none
            else none
          | [] => none
        | none => none
      else none
    | [] => none

end

/-- `json.loads`: parse a whole document, requiring only trailing
whitespace after the value. -/
def jsonParse (cs : List Char) : Option JsonE :=
  match parseValue (2 * cs.length + 2) cs with
  | some vr => if (skipWs vr.2).isEmpty then some vr.1 else none
  | none => none

mutual

/-- `clean_nan_values` from `app.py`: recursively replace NaN float
values (and only NaN — `math.isnan` is false on `Infinity`) with `None`;
dicts and lists are rebuilt, everything else passes through. -/
def clean_nan_values : JsonE → JsonE
  | .jnan => .null
  | .jarr xs => .jarr (cleanList xs)
  | .jobj fs => .jobj (cleanFields fs)
  | v => v

/-- `clean_nan_values` mapped over a list. -/
def cleanList : List JsonE → List JsonE
  | [] => []
  | x :: xs => clean_nan_values x :: cleanList xs

/-- `clean_nan_values` mapped over the values of a dict. -/
def cleanFields : List (List Char × JsonE) → List (List Char × JsonE)
  | [] => []
  | kv :: fs => (kv.1, clean_nan_values kv.2) :: cleanFields fs

end

/-- `load_json` from `app.py`, applied to the content of an existing
file (the filesystem lookup and the `try/except` around reading are
outside the model; a parse failure yields `None` as the caught exception
does): `content.replace('NaN', 'null')`, then `json.loads`, then
`clean_nan_values`. -/
def load_json (content : List Char) : Option JsonE :=
  match jsonParse (pyReplace content "NaN".data "null".data) with
  | some v => some (clean_nan_values v)
  | none => none

/-! ## Serving layer (`app.py`): the `/api/<exchange>/<dataset>` handler -/

/-- A Python string as its list of Unicode code points (the serving
layer is embedded at the code-point level so that `str.lower()` is plain
arithmetic). -/
def codes (s : String) : List ℕ :=
  s.data.map Char.toNat

/-- `str.lower()` on one code point (the route parameters are ASCII). -/
def pyLowerN (n : ℕ) : ℕ :=
  if 65 ≤ n ∧ n ≤ 90 then n + 32 else n

/-- `str.lower()`. -/
def pyLower (s : List ℕ) : List ℕ :=
  s.map pyLowerN

/-- `valid_exchanges` from `get_data`. -/
def valid_exchanges : List (List ℕ) :=
  [codes "nse", codes "bse", codes "gse", codes "zse"]

/-- `valid_datasets` from `get_data`. -/
def valid_datasets : List (List ℕ) :=
  [codes "index", codes "gainers", codes "losers", codes "companies"]

/-- The filename `f"{exchange}_{dataset}.json"`. -/
def apiFilename (e d : List ℕ) : List ℕ :=
  e ++ codes "_" ++ d ++ codes ".json"

/-- The body of a `get_data` response (each constructor records the
strings interpolated into the corresponding `jsonify` payload). -/
inductive ApiResp (α : Type) where
  | invalidExchange (e : List ℕ)
  | invalidDataset (d : List ℕ)
  | noData (e d : List ℕ)
  | ok (data : α) (e d : List ℕ)
deriving DecidableEq, Repr

/-- `get_data` from `app.py`: lowercase both path parameters, validate
them, then look up `{exchange}_{dataset}.json` through the filesystem
abstraction `fs` (`load_json`); returns the HTTP status code and body. -/
def get_data {α : Type} (fs : List ℕ → Option α) (exchange dataset : List ℕ) : ℕ × ApiResp α :=
  let e := pyLower exchange
  let d := pyLower dataset
  if e ∈ valid_exchanges then
    if d ∈ valid_datasets then
      match fs (apiFilename e d) with
      | none => (404, .noData e d)
      | some v => (200, .ok v e d)
    else (400, .invalidDataset d)
  else (400, .invalidExchange e)

/-- The attempt-indexed operation that fails on the first call and would
succeed on any retry: it distinguishes single-attempt execution from any
retrying policy. -/
def opFailOnce : ℕ → Except String (Option (List (List PyScalar)))
  | 0 => .error "boom"
  | _ + 1 => .ok (some [[.pystr "X", .pystr "1", .pystr "+1%"]])

/-- A concrete environment: setup succeeds, the index fetch raises, the
gainers fetch returns no data, losers and companies return rows. -/
def envMixed : ExchangeEnv :=
  { setup := .ok ()
    indexRes := .error "timeout"
    gainersRes := .ok none
    losersRes := .ok (some [[.pystr "KQ", .pystr "2.5", .pystr "-1%"]])
    companiesRes := .ok (some [eqtyRow]) }

/-- First string inside a JSON array, used to tell two documents
apart. -/
def headStr : JsonE → List Char
  | .jarr (.jstr s :: _) => s
  | _ => []

/-- A small concrete index result for the C6 witness. -/
def dfSample : IndexDF :=
  ⟨["Date", "Close"], [[.pystr "2024-01-01", .pyint 100], [.pystr "2024-01-02", .pyint 101]]⟩

/-! ## Sanity checks: concrete evaluations of the embedded code -/

example : pyFloat "15.2" = some (mkRat 76 5) := by decide
example : pyFloat "+1.4%" = none := by decide
example : pyFloat "-3" = some (mkRat (-3) 1) := by decide
example : pyFloat "1e3" = some (mkRat 1000 1) := by decide
example : pyFloat ".5" = some (mkRat 1 2) := by decide
example : pyFloat "" = none := by decide
example : pyFloat "None" = none := by decide
example : pyFloat "15.2" = some (15.2 : ℚ) := by
  have h : pyFloat "15.2" = some (mkRat 76 5) := by decide
  rw [h]; norm_num [Rat.mkRat_eq_div]
example : safe_float (.pystr " 15.2 ") 0 = mkRat 76 5 := by decide
example : safe_float (.pystr "\u200B") 7 = 7 := by decide
example : safe_float .pynone 7 = 7 := by decide
example : safe_float (.pyint 0) 3 = 0 := by decide
example : safe_float (.pyfloat 152 1) 0 = mkRat 76 5 := by decide
example : normMovers [[.pystr "SAFCOM", .pystr "15.2", .pystr "+1.4%"]] =
    [{ ticker := "SAFCOM", price := mkRat 76 5, change := "+1.4%" }] := by decide
example : normMovers [[.pystr "", .pystr "", .pystr ""]] =
    [{ ticker := "", price := 0, change := "" }] := by decide
example : normMovers [[.pystr "ONLY"]] = [] := by decide
example : normMovers [[]] = [] := by decide
example : normIndex ⟨["Date", "Close"], [[.pystr "2024-01-01", .pyint 100]]⟩ =
    [[("Date", .pystr "2024-01-01"), ("Close", .pyint 100)]] := by decide
example : (normIndex ⟨["A"], (List.range 12).map (fun i => [.pyint i])⟩).length = 10 := by decide
example : normCompanies [eqtyRow] =
    [{ ticker := "EQTY", name := "Equity Group", volume := "N/A", price := 0, change := 0 }] := by
  decide
example : (chunks exchanges 3).map List.length = [3, 3, 3, 1] := by decide
example : (mainEvents exchanges 3).countP isPause = 3 := by decide
example : (chunks [1, 2, 3, 4, 5] 2).flatten = [1, 2, 3, 4, 5] := by decide
example : pyReplace "a NaN b NaN".data "NaN".data "null".data = "a null b null".data := by decide
example : jsonParse "[\"a\", 1.5, NaN, Infinity, null]".data =
    some (.jarr [.jstr "a".data, .jnum (mkRat 3 2), .jnan, .jinf, .null]) := rfl
example : load_json "[\"NaN\", Infinity]".data =
    some (.jarr [.jstr "null".data, .jinf]) := rfl
example : (get_data (fun _ => (none : Option JsonE)) (codes "NSE") (codes "Index")).1 = 404 := by
  decide
example : get_data (fun _ => (none : Option JsonE)) (codes "NSE") (codes "Index") =
    get_data (fun _ => (none : Option JsonE)) (codes "nse") (codes "index") := rfl
/-! ## Claim theorems -/

/-- For `val ≠ None`, `safe_float` is the parse of the stripped string
form with the default on failure. -/
lemma safe_float_char (v : PyScalar) (d : ℚ) (hv : v ≠ .pynone) :
    safe_float v d = (pyFloat (pyStrip (pyStr v))).getD d := by
  have hempty : pyFloat "" = none := by decide
  have hzwsp : pyFloat "\u200B" = none := by decide
  have body : safe_float_body v d =
      (if pyStrip (pyStr v) = "" ∨ pyStrip (pyStr v) = "\u200B" then .ok d
       else
         match pyFloat (pyStrip (pyStr v)) with
         | some q => .ok q
         | none => .error .valueError) := by
    cases v with
    | pynone => exact absurd rfl hv
    | pyint n => rfl
    | pyfloat m k => rfl
    | pystr s => rfl
  unfold safe_float
  rw [body]
  by_cases hif : pyStrip (pyStr v) = "" ∨ pyStrip (pyStr v) = "\u200B"
  · rw [if_pos hif]
    rcases hif with h | h <;> rw [h] <;> simp [hempty, hzwsp]
  · rw [if_neg hif]
    rcases hp : pyFloat (pyStrip (pyStr v)) with _ | q <;> rfl

/-- C4: for every input value (None, numeric, or arbitrary string) and
every default, `safe_float` never raises (it is the total `try/except`
wrapper of `safe_float_body`), returns the default when the trimmed
string form of the input is empty, is the zero-width-space sentinel, or
fails numeric parsing, and otherwise returns the parsed numeric value. -/
theorem C4_safe_float_total_default (v : PyScalar) (d : ℚ) :
    (v = .pynone → safe_float v d = d) ∧
    (pyStrip (pyStr v) = "" → safe_float v d = d) ∧
    (pyStrip (pyStr v) = "\u200B" → safe_float v d = d) ∧
    (pyFloat (pyStrip (pyStr v)) = none → safe_float v d = d) ∧
    (∀ q, pyFloat (pyStrip (pyStr v)) = some q → safe_float v d = q) := by
  by_cases hv : v = .pynone
  · subst hv
    refine ⟨fun _ => rfl, fun _ => rfl, fun _ => rfl, fun _ => rfl, fun q hq => ?_⟩
    have : pyFloat (pyStrip (pyStr .pynone)) = none := by decide
    rw [this] at hq
    exact absurd hq (by simp)
  · have key := safe_float_char v d hv
    refine ⟨fun h => absurd h hv, fun h => ?_, fun h => ?_, fun h => ?_, fun q hq => ?_⟩
    · rw [key, h, (by decide : pyFloat "" = none)]; rfl
    · rw [key, h, (by decide : pyFloat "\u200B" = none)]; rfl
    · rw [key, h]; rfl
    · rw [key, hq]; rfl

/-- C4 witness: the theorem applied at concrete malformed and
well-formed inputs. -/
theorem C4_safe_float_total_default_witness :
    safe_float (.pystr "abc") 7 = 7 ∧
    safe_float (.pystr " 15.2") 3 = mkRat 76 5 ∧
    safe_float .pynone 9 = 9 :=
  ⟨(C4_safe_float_total_default (.pystr "abc") 7).2.2.2.1 (by decide),
   (C4_safe_float_total_default (.pystr " 15.2") 3).2.2.2.2 (mkRat 76 5) (by decide),
   (C4_safe_float_total_default .pynone 9).1 rfl⟩

/-- Lowercasing one code point is idempotent. -/
lemma pyLowerN_idem (n : ℕ) : pyLowerN (pyLowerN n) = pyLowerN n := by
  simp only [pyLowerN]
  split
  · next h => rw [if_neg (by omega : ¬(65 ≤ n + 32 ∧ n + 32 ≤ 90))]
  · rfl

/-- `str.lower()` is idempotent. -/
lemma pyLower_idem (s : List ℕ) : pyLower (pyLower s) = pyLower s := by
  induction s with
  | nil => rfl
  | cons a l ih => simp [pyLower, pyLowerN_idem, ih]

/-- C10: the HTTP data endpoint is case-invariant — `get_data(e, d)`
produces the same status code and body as
`get_data(lowercase(e), lowercase(d))`, because both path parameters are
lowercased before validation and file lookup. -/
theorem C10_get_data_case_invariant {α : Type} (fs : List ℕ → Option α)
    (exchange dataset : List ℕ) :
    get_data fs exchange dataset = get_data fs (pyLower exchange) (pyLower dataset) := by
  simp only [get_data, pyLower_idem]

/-- A gainers/losers row of length one fails at the `row.iloc[1]`
access. -/
lemma moverRowE_singleton (x : PyScalar) : moverRowE [x] = .error .indexError := rfl

/-- `Except.toOption` of an error is `none`. -/
lemma except_toOption_error {ε α : Type} (e : ε) :
    (Except.error e : Except ε α).toOption = none := rfl

/-- C2 (amended): mover rows are processed in order, each row either
yields one complete record or is skipped whole (never partially
emitted), the output is never longer than the input, an unreadable
(empty) row is skipped; but the concrete scenario differs from the
claim: the row `["", "", ""]` is emitted with an empty ticker and price
0.0 — the code never drops a row for an empty ticker string. -/
theorem C2_movers_normalization (rows : List (List PyScalar)) (r : List PyScalar) :
    (normMovers (r :: rows) =
      match moverRowE r with
      | .ok m => m :: normMovers rows
      | .error _ => normMovers rows) ∧
    (normMovers rows).length ≤ rows.length ∧
    (r = [] → moverRowE r = .error .indexError) ∧
    normMovers [[.pystr "SAFCOM", .pystr "15.2", .pystr "+1.4%"], [.pystr "", .pystr "", .pystr ""]] =
      [{ ticker := "SAFCOM", price := 15.2, change := "+1.4%" },
       { ticker := "", price := 0, change := "" }] := by
  refine ⟨?_, ?_, ?_, ?_⟩
  · simp only [normMovers, List.filterMap_cons]
    cases h : moverRowE r <;> simp [Except.toOption, h]
  · exact List.length_filterMap_le _ _
  · rintro rfl; rfl
  · have hval : (15.2 : ℚ) = mkRat 76 5 := by norm_num [Rat.mkRat_eq_div]
    rw [hval]
    decide

/-- C2 counterexample: on the claim's own input the second row is not
dropped, so the output is not the claimed single record. -/
theorem C2_counterexample_empty_ticker_kept :
    normMovers [[.pystr "SAFCOM", .pystr "15.2", .pystr "+1.4%"], [.pystr "", .pystr "", .pystr ""]] ≠
      [{ ticker := "SAFCOM", price := 15.2, change := "+1.4%" }] := by
  intro h
  have h2 := congrArg List.length h
  have h3 : (normMovers [[.pystr "SAFCOM", .pystr "15.2", .pystr "+1.4%"],
      [.pystr "", .pystr "", .pystr ""]]).length = 2 := by decide
  rw [h3] at h2
  simp at h2

/-- C2 witness: the empty row is skipped (its `iloc[1]` raises). -/
theorem C2_movers_normalization_witness : moverRowE [] = .error .indexError :=
  (C2_movers_normalization [] []).2.2.1 rfl

/-- C9: a mover row of length exactly one — ticker position readable,
price position absent — is skipped whole: reading `row.iloc[1]` raises
and the row-level guard drops the row, so it is absent from the
output. -/
theorem C9_len1_row_skipped (pre post : List (List PyScalar)) (r : List PyScalar)
    (h : r.length = 1) :
    normMovers (pre ++ r :: post) = normMovers pre ++ normMovers post := by
  obtain ⟨x, rfl⟩ : ∃ x, r = [x] := by
    match r, h with
    | [x], _ => exact ⟨x, rfl⟩
  simp [normMovers, List.filterMap_append, List.filterMap_cons, moverRowE_singleton,
    Except.toOption]

/-- C9 witness: the theorem at a concrete one-cell row between two
neighbours. -/
theorem C9_len1_row_skipped_witness :
    normMovers [[.pystr "A", .pystr "1", .pystr "x"], [.pystr "ONLY"]] =
      normMovers [[.pystr "A", .pystr "1", .pystr "x"]] ++ normMovers [] :=
  C9_len1_row_skipped [[.pystr "A", .pystr "1", .pystr "x"]] [] [.pystr "ONLY"] rfl

/-- C7: companies fields are resolved by name first with fallback to
position (ticker=0, name=1), volume defaults to the sentinel `"N/A"`
when empty or absent, price and change default to 0.0 via numeric
coercion, rows are emitted in order and whole (on the scalar cell domain
the `row.get`-based resolution is total, so the raise-guard never
fires); in particular the `EQTY` row of the spec normalizes as claimed. -/
theorem C7_companies_resolution (row : CompanyRow) (v : PyScalar) :
    ((rowLookup row (.name "Ticker") = some v → (normCompanyRow row).ticker = pyStr v) ∧
     (rowLookup row (.name "Ticker") = none → rowLookup row (.pos 0) = some v →
        (normCompanyRow row).ticker = pyStr v) ∧
     (rowLookup row (.name "Name") = some v → (normCompanyRow row).name = pyStr v) ∧
     (rowLookup row (.name "Name") = none → rowLookup row (.pos 1) = some v →
        (normCompanyRow row).name = pyStr v)) ∧
    ((rowLookup row (.name "Volume") = none → (normCompanyRow row).volume = "N/A") ∧
     (rowLookup row (.name "Volume") = some v → pyStr v = "" →
        (normCompanyRow row).volume = "N/A")) ∧
    ((rowLookup row (.name "Price") = none → (normCompanyRow row).price = 0) ∧
     (rowLookup row (.name "Price") = some v → (normCompanyRow row).price = safe_float v 0) ∧
     (rowLookup row (.name "Change") = none → (normCompanyRow row).change = 0) ∧
     (rowLookup row (.name "Change") = some v → (normCompanyRow row).change = safe_float v 0)) ∧
    (∀ (rs : List CompanyRow) (r : CompanyRow),
       normCompanies (r :: rs) = normCompanyRow (fillnaRow r) :: normCompanies rs) ∧
    normCompanies [eqtyRow] =
      [{ ticker := "EQTY", name := "Equity Group", volume := "N/A", price := 0, change := 0 }] := by
  refine ⟨⟨?_, ?_, ?_, ?_⟩, ⟨?_, ?_⟩, ⟨?_, ?_, ?_, ?_⟩, ?_, ?_⟩
  · intro h; simp [normCompanyRow, rowGet, h]
  · intro h h0; simp [normCompanyRow, rowGet, h, h0]
  · intro h; simp [normCompanyRow, rowGet, h]
  · intro h h1; simp [normCompanyRow, rowGet, h, h1]
  · intro h; simp [normCompanyRow, rowGet, pyStr, h]
  · intro h hv; simp [normCompanyRow, rowGet, h, hv]
  · intro h; simp [normCompanyRow, rowGet, h,
      (by decide : safe_float (.pyint 0) 0 = 0)]
  · intro h; simp [normCompanyRow, rowGet, h]
  · intro h; simp [normCompanyRow, rowGet, h,
      (by decide : safe_float (.pyint 0) 0 = 0)]
  · intro h; simp [normCompanyRow, rowGet, h]
  · intro rs r
    simp [normCompanies, List.filterMap_cons, normCompanyRowE, Except.toOption]
  · decide

/-- C7 witness: the theorem applied at the `EQTY` row. -/
theorem C7_companies_resolution_witness :
    (normCompanyRow eqtyRow).ticker = pyStr (.pystr "EQTY") ∧
    (normCompanyRow eqtyRow).volume = "N/A" ∧
    normCompanies [eqtyRow] =
      [{ ticker := "EQTY", name := "Equity Group", volume := "N/A", price := 0, change := 0 }] :=
  ⟨(C7_companies_resolution eqtyRow (.pystr "EQTY")).1.1 (by decide),
   (C7_companies_resolution eqtyRow (.pystr "")).2.1.2 (by decide) rfl,
   (C7_companies_resolution eqtyRow .pynone).2.2.2.2⟩

/-- C1 counterexample: the code's dataset block is not the spec's
retry-wrapped block — on an operation that fails once and then
succeeds, the code surfaces the failure with no sleep while the claimed
`with_retry(·, 3, 2)` policy would retry after sleeping `2^0` and
succeed. -/
theorem C1_counterexample_no_retry :
    datasetBlock opFailOnce (fun rs => rs.isEmpty) (fun rs => .mov (normMovers rs))
        "nse_gainers.json" ≠
      datasetBlockRetry opFailOnce (fun rs => rs.isEmpty) (fun rs => .mov (normMovers rs))
        "nse_gainers.json" := by
  decide

/-- C1 (amended): each (source, dataset kind) fetch+normalize step is
executed in a single attempt with no backoff sleeps — the outcome
depends only on the first invocation of the operation, and a failure of
that single attempt is caught at the dataset boundary as a per-dataset
failure rather than retried. -/
theorem C1_dataset_single_attempt {α : Type} (op : ℕ → Except String (Option α))
    (isEmp : α → Bool) (norm : α → ExportedData) (file : String) :
    (datasetBlock op isEmp norm file).2 = [] ∧
    (∀ op2 : ℕ → Except String (Option α), op2 0 = op 0 →
      datasetBlock op2 isEmp norm file = datasetBlock op isEmp norm file) ∧
    (∀ e, op 0 = .error e → (datasetBlock op isEmp norm file).1 = .failed e) := by
  refine ⟨rfl, ?_, ?_⟩
  · intro op2 h
    simp [datasetBlock, h]
  · intro e h
    simp [datasetBlock, h]

/-- C1 witness: the single-attempt theorem at the concrete failing
operation. -/
theorem C1_dataset_single_attempt_witness :
    (datasetBlock opFailOnce (fun rs : List (List PyScalar) => rs.isEmpty)
      (fun rs => .mov (normMovers rs)) "nse_gainers.json").1 = .failed "boom" :=
  (C1_dataset_single_attempt opFailOnce (fun rs => rs.isEmpty)
    (fun rs => .mov (normMovers rs)) "nse_gainers.json").2.2 "boom" rfl

/-- C3: the per-source success flag is true iff the source's setup step
(constructing the exchange fetch context) did not raise; dataset
failures are caught at the dataset boundary, never flip the flag, and
never prevent the remaining dataset kinds from being attempted. -/
theorem C3_success_flag_setup_only (code : String) (env : ExchangeEnv) :
    ((export_exchange_data code env).1 = true ↔ env.setup = .ok ()) ∧
    (env.setup = .ok () →
      (export_exchange_data code env).2.map Prod.fst =
        [Kind.index, Kind.gainers, Kind.losers, Kind.companies]) ∧
    (∀ env2 : ExchangeEnv, env2.setup = env.setup →
      (export_exchange_data code env2).1 = (export_exchange_data code env).1) := by
  refine ⟨?_, ?_, ?_⟩
  · cases h : env.setup with
    | error e => simp [export_exchange_data, h]
    | ok u => cases u; simp [export_exchange_data, h]
  · intro h
    simp [export_exchange_data, h]
  · intro env2 h2
    unfold export_exchange_data
    rw [h2]
    cases h : env.setup <;> rfl

/-- C3 witness: with a failed index fetch the flag stays true and all
four kinds are attempted. -/
theorem C3_success_flag_setup_only_witness :
    (export_exchange_data "nse" envMixed).1 = true ∧
    (export_exchange_data "nse" envMixed).2.map Prod.fst =
      [Kind.index, Kind.gainers, Kind.losers, Kind.companies] :=
  ⟨(C3_success_flag_setup_only "nse" envMixed).1.mpr rfl,
   (C3_success_flag_setup_only "nse" envMixed).2.1 rfl⟩

/-- C8 (code-bug exhibit): on the persisted document `["NaN", Infinity]`
the served value is `["null", Infinity]` — the text-level
`content.replace('NaN', 'null')` rewrites the *string value* `"NaN"` to
`"null"`, and the non-finite `Infinity` token survives
(`clean_nan_values` nulls only NaN) — whereas the claim requires strings
unaltered and every non-finite numeric token replaced by null, i.e.
`["NaN", null]`. -/
theorem C8_load_json_nan_bug :
    load_json "[\"NaN\", Infinity]".data = some (.jarr [.jstr "null".data, .jinf]) ∧
    JsonE.jarr [.jstr "null".data, .jinf] ≠ JsonE.jarr [.jstr "NaN".data, .null] := by
  refine ⟨rfl, ?_⟩
  intro h
  have h2 := congrArg headStr h
  simp only [headStr] at h2
  exact absurd h2 (by decide)

/-- `chunksAux` on the empty list is empty for any fuel. -/
lemma chunksAux_nil {α : Type} (fuel n : ℕ) : chunksAux fuel ([] : List α) n = [] := by
  cases fuel <;> rfl

/-- `chunksAux` does not depend on the fuel once it covers the list
length. -/
lemma chunksAux_congr {α : Type} (n : ℕ) (hn : 0 < n) :
    ∀ (fuel : ℕ) (l : List α) (fuel2 : ℕ), l.length ≤ fuel → l.length ≤ fuel2 →
      chunksAux fuel l n = chunksAux fuel2 l n := by
  intro fuel
  induction fuel with
  | zero =>
    intro l fuel2 h1 h2
    have hl : l = [] := by cases l <;> simp_all
    subst hl
    rw [chunksAux_nil, chunksAux_nil]
  | succ m ih =>
    intro l fuel2 h1 h2
    cases l with
    | nil => rw [chunksAux_nil, chunksAux_nil]
    | cons a t =>
      cases fuel2 with
      | zero => exact absurd h2 (by simp)
      | succ m2 =>
        simp only [chunksAux]
        rw [if_neg (by omega), if_neg (by omega)]
        congr 1
        apply ih
        · simp only [List.length_drop, List.length_cons]
          simp only [List.length_cons] at h1
          omega
        · simp only [List.length_drop, List.length_cons]
          simp only [List.length_cons] at h2
          omega

/-- The defining step of `chunks` on a non-empty list. -/
lemma chunks_cons {α : Type} (a : α) (l : List α) (n : ℕ) (hn : 0 < n) :
    chunks (a :: l) n = (a :: l).take n :: chunks ((a :: l).drop n) n := by
  show chunksAux (l.length + 1) (a :: l) n = _
  simp only [chunksAux]
  rw [if_neg (by omega)]
  congr 1
  exact chunksAux_congr n hn l.length ((a :: l).drop n) ((a :: l).drop n).length
    (by simp only [List.length_drop, List.length_cons]; omega) le_rfl

/-- Concatenating the chunks restores the original list. -/
lemma chunks_flatten {α : Type} (n : ℕ) (hn : 0 < n) :
    ∀ (len : ℕ) (l : List α), l.length ≤ len → (chunks l n).flatten = l := by
  intro len
  induction len with
  | zero =>
    intro l h
    have hl : l = [] := by cases l <;> simp_all
    subst hl; rfl
  | succ m ih =>
    intro l h
    cases l with
    | nil => rfl
    | cons a t =>
      rw [chunks_cons a t n hn]
      simp only [List.flatten_cons]
      rw [ih ((a :: t).drop n)
        (by simp only [List.length_drop, List.length_cons]
            simp only [List.length_cons] at h
            omega)]
      exact List.take_append_drop n (a :: t)

/-- The number of chunks is the ceiling `(N + n - 1) / n`. -/
lemma chunks_length_ceil {α : Type} (n : ℕ) (hn : 0 < n) :
    ∀ (len : ℕ) (l : List α), l.length ≤ len →
      (chunks l n).length = (l.length + n - 1) / n := by
  intro len
  induction len with
  | zero =>
    intro l h
    have hl : l = [] := by cases l <;> simp_all
    subst hl
    simp [chunks, chunksAux_nil]
    exact (Nat.div_eq_of_lt (by omega)).symm
  | succ m ih =>
    intro l h
    cases l with
    | nil =>
      simp [chunks, chunksAux_nil]
      exact (Nat.div_eq_of_lt (by omega)).symm
    | cons a t =>
      rw [chunks_cons a t n hn]
      simp only [List.length_cons]
      rw [ih ((a :: t).drop n)
        (by simp only [List.length_drop, List.length_cons]
            simp only [List.length_cons] at h
            omega)]
      simp only [List.length_drop, List.length_cons]
      rcases Nat.le_total n (t.length + 1) with hle | hgt
      · have e1 : t.length + 1 - n + n - 1 = t.length + 1 - 1 := by omega
        have e2 : t.length + 1 + n - 1 = (t.length + 1 - 1) + n := by omega
        rw [e1, e2, Nat.add_div_right _ hn]
      · have e1 : t.length + 1 - n + n - 1 = n - 1 := by omega
        have e2 : t.length + 1 + n - 1 = (t.length + 1 - 1) + n := by omega
        rw [e1, e2, Nat.add_div_right _ hn, Nat.div_eq_of_lt (by omega),
          Nat.div_eq_of_lt (by omega)]

/-- Every chunk is non-empty and no longer than the batch size. -/
lemma chunks_sizes {α : Type} (n : ℕ) (hn : 0 < n) :
    ∀ (len : ℕ) (l : List α), l.length ≤ len →
      ∀ c ∈ chunks l n, c ≠ [] ∧ c.length ≤ n := by
  intro len
  induction len with
  | zero =>
    intro l h c hc
    have hl : l = [] := by cases l <;> simp_all
    subst hl
    simp [chunks, chunksAux_nil] at hc
  | succ m ih =>
    intro l h c hc
    cases l with
    | nil => simp [chunks, chunksAux_nil] at hc
    | cons a t =>
      rw [chunks_cons a t n hn] at hc
      rcases List.mem_cons.mp hc with rfl | hc2
      · refine ⟨?_, List.length_take_le n (a :: t)⟩
        cases n with
        | zero => omega
        | succ k => simp [List.take]
      · exact ih ((a :: t).drop n)
          (by simp only [List.length_drop, List.length_cons]
              simp only [List.length_cons] at h
              omega) c hc2

/-- The pause count of the `main` loop tail: one pause after every batch
except the last. -/
lemma mainEventsAux_pauses {σ : Type} :
    ∀ (bs : List (List σ)) (tb i : ℕ), i + bs.length = tb →
      (mainEventsAux tb i bs).countP isPause = bs.length - 1 := by
  intro bs
  induction bs with
  | nil => intro tb i h; rfl
  | cons b bs2 ih =>
    intro tb i h
    cases bs2 with
    | nil =>
      have hnot : ¬(i + 1 < tb) := by
        simp only [List.length_cons, List.length_nil] at h
        omega
      simp [mainEventsAux, hnot, isPause]
    | cons b2 bs3 =>
      have hlt : i + 1 < tb := by
        simp only [List.length_cons] at h
        omega
      have ihh := ih tb (i + 1) (by simp only [List.length_cons] at h ⊢; omega)
      simp only [mainEventsAux, hlt, if_true, List.countP_cons, List.countP_append,
        List.length_cons] at ihh ⊢
      simp only [isPause] at ihh ⊢
      simp at ihh ⊢
      omega

/-- C5: for every ordered source list and batch size `B > 0` the
scheduler partitions the list into `⌈N / B⌉` contiguous batches
preserving original order (their concatenation is the list, each batch
non-empty and of size at most `B`), and pauses exactly once after every
batch except the last; in particular on the 10-exchange registry with
`B = 3` it forms batches of sizes `[3, 3, 3, 1]` and pauses 3 times. -/
theorem C5_batching_partition_pauses :
    (∀ (σ : Type) (l : List σ) (B : ℕ), 0 < B →
      (chunks l B).flatten = l ∧
      (chunks l B).length = (l.length + B - 1) / B ∧
      (∀ c ∈ chunks l B, c ≠ [] ∧ c.length ≤ B) ∧
      (mainEvents l B).countP isPause = (chunks l B).length - 1) ∧
    (chunks exchanges 3).map List.length = [3, 3, 3, 1] ∧
    (mainEvents exchanges 3).countP isPause = 3 := by
  refine ⟨?_, by decide, by decide⟩
  intro σ l B hB
  have hlen := chunks_length_ceil B hB l.length l le_rfl
  refine ⟨chunks_flatten B hB l.length l le_rfl, hlen,
    chunks_sizes B hB l.length l le_rfl, ?_⟩
  unfold mainEvents
  rw [mainEventsAux_pauses (chunks l B) ((l.length + B - 1) / B) 0 (by omega)]

/-- C5 witness: the theorem at a concrete list and batch size. -/
theorem C5_batching_partition_pauses_witness :
    (0 : ℕ) < 3 ∧ (chunks [10, 20, 30, 40] 3).flatten = [10, 20, 30, 40] :=
  ⟨by decide, (C5_batching_partition_pauses.1 ℕ [10, 20, 30, 40] 3 (by decide)).1⟩

/-- `astype(str)` at one position preserves the row length. -/
lemma stringifyAt_length (j : ℕ) (row : List PyScalar) :
    (stringifyAt j row).length = row.length := by
  induction row generalizing j with
  | nil => cases j <;> rfl
  | cons c cs ih =>
    cases j with
    | zero => rfl
    | succ k => simp [stringifyAt, ih]

/-- `astype(str)` stringifies the cell at the targeted position. -/
lemma stringifyAt_get (j : ℕ) (row : List PyScalar) (h : j < row.length) :
    (stringifyAt j row).get ⟨j, by rw [stringifyAt_length]; exact h⟩ =
      .pystr (pyStr (row.get ⟨j, h⟩)) := by
  induction row generalizing j with
  | nil => exact absurd h (by simp)
  | cons c cs ih =>
    cases j with
    | zero => rfl
    | succ k =>
      have hk : k < cs.length := by simpa using h
      simpa [stringifyAt] using ih k hk

/-- C6: for every non-empty raw index result with `R` rows, the
normalized output has exactly `min R 10` records, consisting of the last
10 rows in their original relative order (the per-record transform
mapped over the tail-10 suffix), with the `Date` column stringified when
present (every output record carries a string-valued `Date` field). -/
theorem C6_index_tail10 (df : IndexDF) (hne : df.rows ≠ []) :
    (normIndex df).length = min df.rows.length 10 ∧
    normIndex df = (df.rows.drop (df.rows.length - 10)).map (indexRecordOf df.cols) ∧
    ("Date" ∈ df.cols → (∀ r ∈ df.rows, df.cols.length ≤ r.length) →
      ∀ rec ∈ normIndex df, ∃ s, ("Date", PyScalar.pystr s) ∈ rec) := by
  have hB : normIndex df =
      (df.rows.drop (df.rows.length - 10)).map (indexRecordOf df.cols) := by
    unfold normIndex indexRecordOf
    by_cases hd : "Date" ∈ df.cols
    · simp only [hd, if_true, List.map_map]
      rfl
    · simp [hd]
  refine ⟨?_, hB, ?_⟩
  · rw [hB]
    simp only [List.length_map, List.length_drop]
    omega
  · intro hd hrect rec hrec
    rw [hB] at hrec
    obtain ⟨row, hrow, rfl⟩ := List.mem_map.mp hrec
    have hrowlen : df.cols.length ≤ row.length := hrect row (List.mem_of_mem_drop hrow)
    have hjlt : dateIdx df.cols < df.cols.length :=
      List.findIdx_lt_length_of_exists ⟨"Date", hd, by simp⟩
    have hcolj : df.cols.get ⟨dateIdx df.cols, hjlt⟩ = "Date" := by
      have := @List.findIdx_getElem _ (fun c => c = "Date") df.cols hjlt
      simpa [List.get_eq_getElem] using this
    have hrowj : dateIdx df.cols < row.length := by omega
    have hrowj2 : dateIdx df.cols < (stringifyAt (dateIdx df.cols) row).length := by
      rw [stringifyAt_length]; exact hrowj
    refine ⟨pyStr (row.get ⟨dateIdx df.cols, hrowj⟩), ?_⟩
    unfold indexRecordOf
    rw [if_pos hd]
    have hzlen : dateIdx df.cols < (df.cols.zip (stringifyAt (dateIdx df.cols) row)).length := by
      rw [List.length_zip, stringifyAt_length]
      omega
    have hget : (df.cols.zip (stringifyAt (dateIdx df.cols) row)).get ⟨dateIdx df.cols, hzlen⟩ =
        ("Date", PyScalar.pystr (pyStr (row.get ⟨dateIdx df.cols, hrowj⟩))) := by
      rw [List.get_eq_getElem, List.getElem_zip]
      rw [← List.get_eq_getElem _ ⟨dateIdx df.cols, hjlt⟩,
        ← List.get_eq_getElem _ ⟨dateIdx df.cols, hrowj2⟩]
      rw [hcolj, stringifyAt_get (dateIdx df.cols) row hrowj]
    rw [← hget]
    exact List.get_mem _ _ _

/-- C6 witness: the theorem at a concrete 2-row frame with a `Date`
column. -/
theorem C6_index_tail10_witness :
    (normIndex dfSample).length = min dfSample.rows.length 10 ∧
    (∀ rec ∈ normIndex dfSample, ∃ s, ("Date", PyScalar.pystr s) ∈ rec) :=
  ⟨(C6_index_tail10 dfSample (by decide)).1,
   (C6_index_tail10 dfSample (by decide)).2.2 (by decide) (by decide)⟩

end AfricanMarkets
